import Mathlib

/-!
Verification of the MetricCore equity & drawdown analytics engine.

The Python source is shallowly embedded over exact rationals: a pandas
DataFrame column becomes a `List ℚ`, a row becomes a structure, and float
arithmetic is idealised as exact arithmetic on `ℚ` (with `ℝ` only where the
source applies `sqrt` or real exponentiation).  Timestamps are modelled as
rationals (only their ordering matters to the engine).  A Python function
that can raise is embedded with an `Option` codomain, `none` marking the
raised exception.
-/

namespace MetricCore

/-- A validated trade record.  Only the two fields that the analytics core
reads (`timestamp_exit` and `pnl`) are modelled; the remaining validated
columns (symbol, direction, size, entry time) are never inspected by the
embedded functions. -/
structure Trade where
  timestamp_exit : ℚ
  pnl : ℚ
deriving DecidableEq, Repr

/-- One row of the equity curve produced by `to_equity_curve`
(`equitycurve.py`): columns `timestamp`, `balance`, `pnl`, `returns`. -/
structure EquityPoint where
  timestamp : ℚ
  balance : ℚ
  pnl : ℚ
  returns : ℚ
deriving DecidableEq, Repr

instance : Inhabited EquityPoint := ⟨⟨0, 0, 0, 0⟩⟩

/-- Mean of a list of rationals (`np.mean` / `Series.mean`); division by the
length, 0 on the empty list (ℚ-division by zero is 0). -/
def mean (l : List ℚ) : ℚ := l.sum / l.length

/-- Insert `x` into `l` after every element `y` with `le y x`: the inner
step of a stable insertion sort. -/
def insertLe {α : Type} (le : α → α → Bool) (x : α) : List α → List α
  | [] => [x]
  | y :: ys => if le y x then y :: insertLe le x ys else x :: y :: ys

/-- Stable insertion sort by `le` (used to model the library sorts; a stable
sort's output is uniquely determined by the key order and input order). -/
def insertionSort {α : Type} (le : α → α → Bool) : List α → List α
  | [] => []
  | x :: xs => insertLe le x (insertionSort le xs)

/-- `df.sort_values("timestamp_exit")`: the trades reordered into ascending
exit-time order.  The source uses pandas' default (numpy quicksort) sort; we
model it with a stable sort, which agrees with the source on every
input whose exit times are pairwise distinct.  (On tied keys numpy's
introsort is *not* stable for more than 16 rows; see the notes on the
ordering guarantee.) -/
def sortTrades (df : List Trade) : List Trade :=
  insertionSort (fun a b => a.timestamp_exit ≤ b.timestamp_exit) df

/-- `to_equity_curve` (`equitycurve.py` lines 19–37): sort by exit time,
`balance = starting_balance + cumsum(pnl)`,
`returns = pnl / prev_balance * 100` with
`prev_balance = starting_balance + cumsum(pnl).shift(1).fillna(0)`. -/
def to_equity_curve (df : List Trade) (starting_balance : ℚ := 10000) :
    List EquityPoint :=
  let sorted := sortTrades df
  let pnls := sorted.map Trade.pnl
  sorted.enum.map (fun p =>
    let prev := starting_balance + (pnls.take p.1).sum
    { timestamp := p.2.timestamp_exit
      balance := starting_balance + (pnls.take (p.1 + 1)).sum
      pnl := p.2.pnl
      returns := p.2.pnl / prev * 100 })

/-- One row of the drawdown series produced by `calculate_drawdown_series`
(`drawdowns.py`): the equity-curve columns plus `peak`, `drawdown`,
`drawdown_pct` and `underwater`. -/
structure DrawdownPoint where
  timestamp : ℚ
  balance : ℚ
  pnl : ℚ
  returns : ℚ
  peak : ℚ
  drawdown : ℚ
  drawdown_pct : ℚ
  underwater : Bool
deriving DecidableEq, Repr

instance : Inhabited DrawdownPoint := ⟨⟨0, 0, 0, 0, 0, 0, 0, false⟩⟩

/-- Tail of `Series.cummax`: running maxima of `xs` continuing from an
already-accumulated maximum `m`. -/
def cummaxAux (m : ℚ) : List ℚ → List ℚ
  | [] => []
  | x :: xs => max m x :: cummaxAux (max m x) xs

/-- `Series.cummax`: the running maximum of a list. -/
def cummax : List ℚ → List ℚ
  | [] => []
  | x :: xs => x :: cummaxAux x xs

/-- `calculate_drawdown_series` (`drawdowns.py` lines 31–45):
`peak = balance.cummax()`, `drawdown = balance - peak`,
`drawdown_pct = drawdown / peak * 100`, `underwater = balance < peak`. -/
def calculate_drawdown_series (equity_curve : List EquityPoint) :
    List DrawdownPoint :=
  (equity_curve.zip (cummax (equity_curve.map EquityPoint.balance))).map
    (fun q =>
      { timestamp := q.1.timestamp
        balance := q.1.balance
        pnl := q.1.pnl
        returns := q.1.returns
        peak := q.2
        drawdown := q.1.balance - q.2
        drawdown_pct := (q.1.balance - q.2) / q.2 * 100
        underwater := q.1.balance < q.2 })

/-- A drawdown period as built by `identify_drawdown_periods`: the dict keys
`start_idx`, `end_idx` (absent while open, modelled as the final value
`none`), `start_date`, `end_date`, `peak_balance`, `trough_balance`,
`max_drawdown`, `max_drawdown_pct`, `duration`, `recovered`. -/
structure DrawdownPeriod where
  start_idx : ℕ
  end_idx : Option ℕ
  start_date : ℚ
  end_date : Option ℚ
  peak_balance : ℚ
  trough_balance : ℚ
  max_drawdown : ℚ
  max_drawdown_pct : ℚ
  duration : ℕ
  recovered : Bool
deriving DecidableEq, Repr

/-- The partially-built dict held in `current_period` while the scan of
`identify_drawdown_periods` is inside a drawdown (before the end fields are
added). -/
structure OpenPeriod where
  start_idx : ℕ
  start_date : ℚ
  peak_balance : ℚ
  trough_balance : ℚ
  max_drawdown : ℚ
  max_drawdown_pct : ℚ
deriving DecidableEq, Repr

/-- The `for idx, row in dd_series.iterrows()` loop of
`identify_drawdown_periods` (`drawdowns.py` lines 84–120), including the
terminal handling of a still-open drawdown: `i` is the index of the next
row, `cur` the open period (`current_period` when `in_drawdown`). -/
def scanPeriods : List DrawdownPoint → ℕ → Option OpenPeriod →
    List DrawdownPeriod
  | [], _, none => []
  | [], i, some cur =>
      -- still in drawdown at the end; `len(dd_series) - start_idx = i - start_idx`
      [{ start_idx := cur.start_idx
         end_idx := none
         start_date := cur.start_date
         end_date := none
         peak_balance := cur.peak_balance
         trough_balance := cur.trough_balance
         max_drawdown := cur.max_drawdown
         max_drawdown_pct := cur.max_drawdown_pct
         duration := i - cur.start_idx
         recovered := false }]
  | row :: rest, i, none =>
      if row.underwater then
        scanPeriods rest (i + 1) (some
          { start_idx := i
            start_date := row.timestamp
            peak_balance := row.peak
            trough_balance := row.balance
            max_drawdown := row.drawdown
            max_drawdown_pct := row.drawdown_pct })
      else
        scanPeriods rest (i + 1) none
  | row :: rest, i, some cur =>
      if row.underwater then
        scanPeriods rest (i + 1) (some
          (if row.drawdown < cur.max_drawdown then
            { cur with
              max_drawdown := row.drawdown
              max_drawdown_pct := row.drawdown_pct
              trough_balance := row.balance }
          else cur))
      else
        { start_idx := cur.start_idx
          end_idx := some i
          start_date := cur.start_date
          end_date := some row.timestamp
          peak_balance := cur.peak_balance
          trough_balance := cur.trough_balance
          max_drawdown := cur.max_drawdown
          max_drawdown_pct := cur.max_drawdown_pct
          duration := i - cur.start_idx
          recovered := true } :: scanPeriods rest (i + 1) none

/-- `identify_drawdown_periods` (`drawdowns.py` lines 77–122). -/
def identify_drawdown_periods (equity_curve : List EquityPoint) :
    List DrawdownPeriod :=
  scanPeriods (calculate_drawdown_series equity_curve) 0 none

/-- `Series.idxmin`: position of the first occurrence of the minimum of the
list.  pandas raises `ValueError` on an empty series, modelled by `none`. -/
def idxmin (l : List ℚ) : Option ℕ :=
  match l with
  | [] => none
  | x :: xs => some (List.findIdx (fun y => y = xs.foldl min x) (x :: xs))

/-- `dd_series[peak_mask].index[-1]` for
`peak_mask = (index < t) & P`: the greatest index `< t` satisfying `P`,
found by scanning downward from `t`. -/
def findLastBefore (P : ℕ → Bool) : ℕ → Option ℕ
  | 0 => none
  | k + 1 => if P k then some k else findLastBefore P k

/-- `dd_series[mask].index[0]` for a mask over indices `i, i+1, ...` with
`fuel` remaining positions: the least index in that window satisfying `P`. -/
def findFirstFrom (P : ℕ → Bool) : ℕ → ℕ → Option ℕ
  | _, 0 => none
  | i, fuel + 1 => if P i then some i else findFirstFrom P (i + 1) fuel

/-- The dict returned by `maximum_drawdown` (`drawdowns.py` lines 177–188). -/
structure MaxDrawdownResult where
  max_drawdown_pct : ℚ
  max_drawdown_amount : ℚ
  peak_balance : ℚ
  trough_balance : ℚ
  peak_date : ℚ
  trough_date : ℚ
  recovery_date : Option ℚ
  duration_to_trough : ℕ
  duration_to_recovery : Option ℕ
  currently_in_drawdown : Bool
deriving DecidableEq, Repr

/-- `maximum_drawdown` (`drawdowns.py` lines 124–188).  The trough is
`drawdown_pct.idxmin()` (first occurrence of the minimum; raises — `none` —
on an empty curve); the peak is the last index strictly before the trough
whose balance equals the trough row's `peak` (falling back to index 0 when
no such index exists); the recovery is the first index strictly after the
trough whose balance is `≥` that peak balance (`recovery_mask` uses
`index > max_dd_idx`). -/
def maximum_drawdown (equity_curve : List EquityPoint) :
    Option MaxDrawdownResult :=
  let dd := calculate_drawdown_series equity_curve
  match idxmin (dd.map DrawdownPoint.drawdown_pct) with
  | none => none
  | some t =>
    let row := dd.getD t default
    let peak_idx :=
      (findLastBefore (fun i => (dd.getD i default).balance = row.peak) t).getD 0
    let peak_row := dd.getD peak_idx default
    match findFirstFrom (fun i => row.peak ≤ (dd.getD i default).balance)
        (t + 1) (dd.length - (t + 1)) with
    | some ri =>
        some { max_drawdown_pct := row.drawdown_pct
               max_drawdown_amount := row.drawdown
               peak_balance := row.peak
               trough_balance := row.balance
               peak_date := peak_row.timestamp
               trough_date := row.timestamp
               recovery_date := some (dd.getD ri default).timestamp
               duration_to_trough := t - peak_idx
               duration_to_recovery := some (ri - peak_idx)
               currently_in_drawdown := false }
    | none =>
        some { max_drawdown_pct := row.drawdown_pct
               max_drawdown_amount := row.drawdown
               peak_balance := row.peak
               trough_balance := row.balance
               peak_date := peak_row.timestamp
               trough_date := row.timestamp
               recovery_date := none
               duration_to_trough := t - peak_idx
               duration_to_recovery := none
               currently_in_drawdown := true }

/-- `average_drawdown` (`drawdowns.py` lines 191–213): mean of the absolute
episode `max_drawdown_pct`s, 0.0 with no episodes. -/
def average_drawdown (equity_curve : List EquityPoint) : ℚ :=
  let periods := identify_drawdown_periods equity_curve
  if periods = [] then 0
  else mean (periods.map (fun p => |p.max_drawdown_pct|))

/-- `np.median`: middle element of the sorted list, or the mean of the two
middle elements for an even length. -/
def median (l : List ℚ) : ℚ :=
  let s := insertionSort (fun a b => a ≤ b) l
  if l.length % 2 = 1 then s.getD (l.length / 2) 0
  else (s.getD (l.length / 2 - 1) 0 + s.getD (l.length / 2) 0) / 2

/-- The dict returned by `drawdown_duration_stats`. -/
structure DurationStats where
  avg_duration : ℚ
  max_duration : ℕ
  median_duration : ℚ
  total_periods : ℕ
  currently_underwater : Bool
deriving DecidableEq, Repr

/-- `drawdown_duration_stats` (`drawdowns.py` lines 216–254). -/
def drawdown_duration_stats (equity_curve : List EquityPoint) :
    DurationStats :=
  let periods := identify_drawdown_periods equity_curve
  if h : periods = [] then
    { avg_duration := 0
      max_duration := 0
      median_duration := 0
      total_periods := 0
      currently_underwater := false }
  else
    let durations := periods.map DrawdownPeriod.duration
    { avg_duration := mean (durations.map (fun d => (d : ℚ)))
      max_duration := durations.foldr max 0
      median_duration := median (durations.map (fun d => (d : ℚ)))
      total_periods := periods.length
      currently_underwater := !(periods.getLast (by simpa using h)).recovered }

/-- The dict returned by `underwater_time`. -/
structure UnderwaterTime where
  underwater_trades : ℕ
  total_trades : ℕ
  underwater_pct : ℚ
deriving DecidableEq, Repr

/-- `underwater_time` (`drawdowns.py` lines 256–282). -/
def underwater_time (equity_curve : List EquityPoint) : UnderwaterTime :=
  let dd := calculate_drawdown_series equity_curve
  let uw := (dd.filter DrawdownPoint.underwater).length
  { underwater_trades := uw
    total_trades := dd.length
    underwater_pct :=
      if 0 < dd.length then (uw : ℚ) / dd.length * 100 else 0 }

/-- Continuation of `_compute_streaks` (`winloss.py` lines 172–198): the
numpy change-boundary/`diff` idiom computes the run-length encoding of the
boolean series; `v` is the value of the current run and `len` its length so
far. -/
def computeStreaksAux (v : Bool) (len : ℕ) : List Bool → List (Bool × ℕ)
  | [] => [(v, len)]
  | b :: bs =>
      if b = v then computeStreaksAux v (len + 1) bs
      else (v, len) :: computeStreaksAux b 1 bs

/-- `_compute_streaks`: list of `(value, run_length)` pairs for the maximal
runs of equal values, in order; `[]` on the empty series. -/
def computeStreaks : List Bool → List (Bool × ℕ)
  | [] => []
  | b :: bs => computeStreaksAux b 1 bs

/-- `longest_win_streak` (`winloss.py` lines 201–234).  Note the source
computes `filtered = df_sorted[df_sorted['pnl'] != 0]` but then builds the
sign series `is_win = df_sorted['pnl'] > 0` from the *unfiltered* frame;
the embedding reproduces that. -/
def longest_win_streak (df : List Trade) : ℕ :=
  if df = [] then 0
  else
    let df_sorted := sortTrades df
    let filtered := df_sorted.filter (fun t => t.pnl ≠ 0)
    if filtered = [] then 0
    else
      let is_win := df_sorted.map (fun t => decide (0 < t.pnl))
      let streaks := computeStreaks is_win
      let win_streaks := (streaks.filter (fun s => s.1)).map (fun s => s.2)
      win_streaks.foldr max 0

/-- `longest_loss_streak` (`winloss.py` lines 237–273); same unfiltered
sign-series construction, with `is_loss = df_sorted['pnl'] < 0`. -/
def longest_loss_streak (df : List Trade) : ℕ :=
  if df = [] then 0
  else
    let df_sorted := sortTrades df
    let filtered := df_sorted.filter (fun t => t.pnl ≠ 0)
    if filtered = [] then 0
    else
      let is_loss := df_sorted.map (fun t => decide (t.pnl < 0))
      let streaks := computeStreaks is_loss
      let loss_streaks := (streaks.filter (fun s => s.1)).map (fun s => s.2)
      loss_streaks.foldr max 0

/-- `pd.Series(ls).value_counts().to_dict()` followed by
`dict(sorted(...items()))`: occurrence counts of each distinct length,
as an association list sorted by length ascending. -/
def countsSorted (ls : List ℕ) : List (ℕ × ℕ) :=
  ((insertionSort (fun a b => a ≤ b) ls).dedup).map (fun x => (x, ls.count x))

/-- `streak_distribution` (`winloss.py` lines 276–323): the pair
`(wins, losses)` of sorted length-to-frequency maps, built from the
`is_win` runs of the (unfiltered) sign series. -/
def streak_distribution (df : List Trade) : List (ℕ × ℕ) × List (ℕ × ℕ) :=
  if df = [] then ([], [])
  else
    let df_sorted := sortTrades df
    let filtered := df_sorted.filter (fun t => t.pnl ≠ 0)
    if filtered = [] then ([], [])
    else
      let is_win := df_sorted.map (fun t => decide (0 < t.pnl))
      let streaks := computeStreaks is_win
      let win_streaks := (streaks.filter (fun s => s.1)).map (fun s => s.2)
      let loss_streaks := (streaks.filter (fun s => !s.1)).map (fun s => s.2)
      (countsSorted win_streaks, countsSorted loss_streaks)

/-- A Python float result that may be an infinity (`float('inf')`), as
returned by the ratio calculators. -/
inductive RatioVal where
  | fin (x : ℝ)
  | posInf
  | negInf

/-- Sample standard deviation `Series.std()` (ddof = 1) over exact values.
(For a single observation pandas produces NaN; the ℝ idealisation yields 0
there via division by zero — no claim depends on that case.) -/
noncomputable def sampleStd (l : List ℚ) : ℝ :=
  Real.sqrt ((l.map (fun r => ((r : ℝ) - (mean l : ℝ)) ^ 2)).sum /
    ((l.length : ℝ) - 1))

/-- `sharpe_ratio` (`ratios.py` lines 5–54).  `rf` is the annual risk-free
rate; the per-period rate is `(1 + rf) ^ (1/periods_per_year) - 1`. -/
noncomputable def sharpe_ratio (equity_curve : List EquityPoint)
    (risk_free_rate : ℝ := 0) (periods_per_year : ℕ := 252) : RatioVal :=
  if equity_curve = [] then .fin 0
  else
    let returns := equity_curve.map EquityPoint.returns
    if returns = [] ∨ sampleStd returns = 0 then .fin 0
    else
      let rf_per_period_pct :=
        ((1 + risk_free_rate) ^ ((1 : ℝ) / periods_per_year) - 1) * 100
      .fin (((mean returns : ℝ) - rf_per_period_pct) / sampleStd returns *
        Real.sqrt periods_per_year)

/-- `sortino_ratio` (`ratios.py` lines 57–112) with the target return given
explicitly (the `target_return` parameter; a `None` target defaults to the
per-period risk-free rate, which is the rational 0 when
`risk_free_rate = 0`). -/
noncomputable def sortino_ratio (equity_curve : List EquityPoint)
    (target_return : ℚ := 0) (periods_per_year : ℕ := 252) : RatioVal :=
  if equity_curve = [] then .fin 0
  else
    let returns := equity_curve.map EquityPoint.returns
    if returns = [] then .fin 0
    else
      let downside_returns := returns.filter (fun r => r < target_return)
      if downside_returns = [] then
        if target_return < mean returns then .posInf else .fin 0
      else
        let downside_deviation := Real.sqrt
          ((mean (downside_returns.map (fun d => (d - target_return) ^ 2)) : ℚ) : ℝ)
        if downside_deviation = 0 then
          if target_return < mean returns then .posInf else .fin 0
        else
          .fin (((mean returns : ℝ) - (target_return : ℝ)) /
            downside_deviation * Real.sqrt periods_per_year)

/-- The absolute maximum-drawdown percentage read by `calmar_ratio` from the
`maximum_drawdown` summary (`abs(max_dd['max_drawdown_pct'])`). -/
def calmarMaxDD (equity_curve : List EquityPoint) : ℚ :=
  |((maximum_drawdown equity_curve).map MaxDrawdownResult.max_drawdown_pct).getD 0|

/-- Total return of the curve as computed in `calmar_ratio`:
`starting_balance` is recovered as `balance[0] - pnl[0]`, and
`total_return = (ending_balance - starting_balance) / starting_balance`. -/
def totalReturn (equity_curve : List EquityPoint) : ℚ :=
  let sb := (equity_curve.headD default).balance - (equity_curve.headD default).pnl
  let eb := (equity_curve.getLastD default).balance
  (eb - sb) / sb

/-- The annualised return computed in `calmar_ratio`:
`(1 + total_return) ^ (1 / years) - 1` with
`years = num_periods / periods_per_year`. -/
noncomputable def annualizedReturn (equity_curve : List EquityPoint)
    (periods_per_year : ℕ) : ℝ :=
  let years : ℚ := (equity_curve.length : ℚ) / periods_per_year
  (1 + (totalReturn equity_curve : ℝ)) ^ ((1 : ℝ) / (years : ℝ)) - 1

/-- `calmar_ratio` (`ratios.py` lines 115–163). -/
noncomputable def calmar_ratio (equity_curve : List EquityPoint)
    (periods_per_year : ℕ := 252) : RatioVal :=
  if equity_curve = [] then .fin 0
  else
    let years : ℚ := (equity_curve.length : ℚ) / periods_per_year
    if years ≤ 0 then .fin 0
    else
      let annualized_return := annualizedReturn equity_curve periods_per_year
      let max_dd_pct := calmarMaxDD equity_curve
      if max_dd_pct = 0 then
        if 0 < annualized_return then .posInf else .fin 0
      else
        .fin (annualized_return * 100 / (max_dd_pct : ℝ))

/-- `recovery_factor` (`ratios.py` lines 166–199). -/
noncomputable def recovery_factor (equity_curve : List EquityPoint) : RatioVal :=
  if equity_curve = [] then .fin 0
  else
    let net_profit := (equity_curve.map EquityPoint.pnl).sum
    let max_dd_amount :=
      |((maximum_drawdown equity_curve).map
          MaxDrawdownResult.max_drawdown_amount).getD 0|
    if max_dd_amount = 0 then
      if 0 < net_profit then .posInf else .fin 0
    else .fin ((net_profit : ℝ) / (max_dd_amount : ℝ))

/-! Theorems about the claims. -/

/-- Claim C1: the streak computations do *not* exclude breakeven trades from the
sign sequence.  On the pnl sequence `[1, 0, 1]` (win, breakeven, win) the
source returns a longest win streak of 1, whereas on the sequence with the
zero-pnl trade removed it returns 2; the streak distribution likewise counts
the breakeven as a length-1 loss run.  This contradicts the claim's
equivalence with zero-removed inputs (and the source's own comments
"Drop breakeven trades …", whose `filtered` frame is computed and then
ignored). -/
theorem c1_breakeven_breaks_streaks :
    longest_win_streak [⟨1, 1⟩, ⟨2, 0⟩, ⟨3, 1⟩] = 1 ∧
    longest_win_streak
      (([⟨1, 1⟩, ⟨2, 0⟩, ⟨3, 1⟩] : List Trade).filter (fun t => t.pnl ≠ 0)) = 2 ∧
    longest_loss_streak [⟨1, -1⟩, ⟨2, 0⟩, ⟨3, -1⟩] = 1 ∧
    longest_loss_streak
      (([⟨1, -1⟩, ⟨2, 0⟩, ⟨3, -1⟩] : List Trade).filter (fun t => t.pnl ≠ 0)) = 2 ∧
    streak_distribution [⟨1, 1⟩, ⟨2, 0⟩, ⟨3, 1⟩] = ([(1, 2)], [(1, 1)]) ∧
    streak_distribution
      (([⟨1, 1⟩, ⟨2, 0⟩, ⟨3, 1⟩] : List Trade).filter (fun t => t.pnl ≠ 0)) =
      ([(2, 1)], []) := by
  decide

/-- Claim C2: on the empty input every embedded aggregate returns its documented
zero/empty default — except `maximum_drawdown`, which evaluates
`idxmin` on an empty series: pandas raises `ValueError` there, modelled by
`none` instead of a default dict. -/
theorem c2_empty_defaults (sb target : ℚ) (rf : ℝ) (ppy : ℕ) :
    to_equity_curve [] sb = [] ∧
    calculate_drawdown_series [] = [] ∧
    identify_drawdown_periods [] = [] ∧
    maximum_drawdown [] = none ∧
    average_drawdown [] = 0 ∧
    drawdown_duration_stats [] =
      { avg_duration := 0, max_duration := 0, median_duration := 0,
        total_periods := 0, currently_underwater := false } ∧
    underwater_time [] =
      { underwater_trades := 0, total_trades := 0, underwater_pct := 0 } ∧
    sharpe_ratio [] rf ppy = .fin 0 ∧
    sortino_ratio [] target ppy = .fin 0 ∧
    calmar_ratio [] ppy = .fin 0 ∧
    recovery_factor [] = .fin 0 ∧
    longest_win_streak [] = 0 ∧
    longest_loss_streak [] = 0 ∧
    streak_distribution [] = ([], []) := by
  refine ⟨rfl, rfl, rfl, rfl, rfl, rfl, rfl, ?_, ?_, ?_, ?_, rfl, rfl, rfl⟩ <;>
    simp [sharpe_ratio, sortino_ratio, calmar_ratio, recovery_factor]

/-- Claim C4 counterexample: the claim allows any finite starting balance,
including negative ones, and asserts `drawdown_pct ≤ 0` throughout.  With
`starting_balance = -100` and pnl `[10, -5]` the second point has a negative
running peak (−90), so `drawdown_pct = (-5)/(-90)·100 = 50/9 > 0` while the
point is underwater — refuting `drawdown_pct[i] ≤ 0` (and equality-at-0
exactly off-underwater). -/
theorem c4_negative_peak_counterexample :
    0 < ((calculate_drawdown_series
        (to_equity_curve [⟨1, 10⟩, ⟨2, -5⟩] (-100))).getD 1 default).drawdown_pct ∧
    ((calculate_drawdown_series
        (to_equity_curve [⟨1, 10⟩, ⟨2, -5⟩] (-100))).getD 1 default).underwater =
      true := by
  refine ⟨?_, ?_⟩ <;>
    norm_num [to_equity_curve, sortTrades, insertionSort, insertLe,
      calculate_drawdown_series, cummax, cummaxAux, List.enum, List.enumFrom]

/-- Claim C6 counterexample: the claim locates the recovery at the first index
*at or after* the trough with `balance ≥ peak_balance`, with recovery fields
null exactly when no such index exists.  On the single-trade curve the
trough is index 0 and index 0 itself satisfies `balance ≥ peak` (the point
is at its own peak), so the claimed rule yields a recovery — yet the source
masks `index > max_dd_idx` (strictly after) and returns
`recovery_date = None`, `currently_in_drawdown = True`. -/
theorem c6_at_trough_counterexample :
    (idxmin ((calculate_drawdown_series (to_equity_curve [⟨1, 100⟩] 10000)).map
        DrawdownPoint.drawdown_pct) = some 0) ∧
    (((calculate_drawdown_series (to_equity_curve [⟨1, 100⟩] 10000)).getD 0
        default).peak ≤
      ((calculate_drawdown_series (to_equity_curve [⟨1, 100⟩] 10000)).getD 0
        default).balance) ∧
    (maximum_drawdown (to_equity_curve [⟨1, 100⟩] 10000)).map
        MaxDrawdownResult.recovery_date = some none ∧
    (maximum_drawdown (to_equity_curve [⟨1, 100⟩] 10000)).map
        MaxDrawdownResult.currently_in_drawdown = some true := by
  refine ⟨?_, ?_, ?_, ?_⟩ <;>
    norm_num [to_equity_curve, sortTrades, insertionSort, insertLe,
      calculate_drawdown_series, cummax, cummaxAux, idxmin, maximum_drawdown,
      findLastBefore, findFirstFrom, List.enum, List.enumFrom, List.findIdx,
      List.findIdx.go]

/-- Duration so far of the open period (index `i` being the next row):
`i - start_idx` when a period is open, 0 otherwise. -/
def curDuration (i : ℕ) : Option OpenPeriod → ℕ
  | none => 0
  | some c => i - c.start_idx

/-- Start index recorded by the scan state: the open period's `start_idx`,
or the next row index `i` when no period is open (a lower bound for every
episode still to be emitted). -/
def curStart (i : ℕ) : Option OpenPeriod → ℕ
  | none => i
  | some c => c.start_idx

theorem scanPeriods_duration_sum (ps : List DrawdownPoint) :
    ∀ (i : ℕ) (cur : Option OpenPeriod),
      (∀ c, cur = some c → c.start_idx ≤ i) →
      ((scanPeriods ps i cur).map DrawdownPeriod.duration).sum =
        (ps.filter DrawdownPoint.underwater).length + curDuration i cur := by
  induction ps with
  | nil =>
    intro i cur h
    cases cur with
    | none => simp [scanPeriods, curDuration]
    | some c => simp [scanPeriods, curDuration]
  | cons row rest ih =>
    intro i cur h
    cases cur with
    | none =>
      by_cases hu : row.underwater
      · rw [scanPeriods, if_pos hu,
          ih (i + 1) _ (by intro c hc; cases hc; simp),
          List.filter_cons_of_pos (by simpa using hu)]
        simp [curDuration]
      · rw [scanPeriods, if_neg hu, ih (i + 1) none (by simp),
          List.filter_cons_of_neg (by simpa using hu)]
        simp [curDuration]
    | some c =>
      have hc : c.start_idx ≤ i := h c rfl
      by_cases hu : row.underwater
      · rw [scanPeriods, if_pos hu,
          List.filter_cons_of_pos (by simpa using hu)]
        split
        · rw [ih (i + 1) _ (by intro d hd; cases hd; exact hc.trans (by omega))]
          simp only [curDuration, List.length_cons]
          omega
        · rw [ih (i + 1) _ (by intro d hd; cases hd; exact hc.trans (by omega))]
          simp only [curDuration, List.length_cons]
          omega
      · rw [scanPeriods, if_neg hu,
          List.filter_cons_of_neg (by simpa using hu)]
        simp only [List.map_cons, List.sum_cons,
          ih (i + 1) none (by simp), curDuration]
        omega

/-- Claim C3: for every equity curve, the episode durations returned by
`identify_drawdown_periods` — the closed ones plus the open unrecovered one
if present — sum to the number of underwater points of the drawdown series
(the `underwater_trades` counter of `underwater_time`), and re-running the
extractor on the same input returns the identical episode list (it is a
pure function of its input). -/
theorem c3_duration_sum_and_idempotence (ec : List EquityPoint) :
    ((identify_drawdown_periods ec).map DrawdownPeriod.duration).sum =
      ((calculate_drawdown_series ec).filter DrawdownPoint.underwater).length ∧
    ((identify_drawdown_periods ec).map DrawdownPeriod.duration).sum =
      (underwater_time ec).underwater_trades ∧
    identify_drawdown_periods ec = identify_drawdown_periods ec := by
  have h := scanPeriods_duration_sum (calculate_drawdown_series ec) 0 none
    (by intro c hc; cases hc)
  refine ⟨by simpa [identify_drawdown_periods, curDuration] using h, ?_, rfl⟩
  simpa [identify_drawdown_periods, curDuration, underwater_time] using h

theorem scanPeriods_start_le (ps : List DrawdownPoint) :
    ∀ (i : ℕ) (cur : Option OpenPeriod),
      (∀ c, cur = some c → c.start_idx ≤ i) →
      ∀ ep ∈ scanPeriods ps i cur, curStart i cur ≤ ep.start_idx := by
  induction ps with
  | nil =>
    intro i cur h ep hep
    cases cur with
    | none => simp [scanPeriods] at hep
    | some c =>
      simp [scanPeriods] at hep
      simp [hep, curStart]
  | cons row rest ih =>
    intro i cur h ep hep
    cases cur with
    | none =>
      by_cases hu : row.underwater
      · rw [scanPeriods, if_pos hu] at hep
        have := ih (i + 1) _ (by intro c hc; cases hc; simp) ep hep
        simpa [curStart] using this
      · rw [scanPeriods, if_neg hu] at hep
        have := ih (i + 1) none (by simp) ep hep
        simp only [curStart] at this ⊢
        omega
    | some c =>
      have hc : c.start_idx ≤ i := h c rfl
      by_cases hu : row.underwater
      · rw [scanPeriods, if_pos hu] at hep
        split at hep
        · have := ih (i + 1) _ (by intro d hd; cases hd; exact hc.trans (by omega)) ep hep
          simpa [curStart] using this
        · have := ih (i + 1) _ (by intro d hd; cases hd; exact hc.trans (by omega)) ep hep
          simpa [curStart] using this
      · rw [scanPeriods, if_neg hu] at hep
        rcases List.mem_cons.mp hep with hep | hep
        · simp [hep, curStart]
        · have := ih (i + 1) none (by simp) ep hep
          simp only [curStart] at this ⊢
          omega

/-- Claim C10: for every non-empty equity curve, the first drawdown point sits at
its own peak (`peak[0] = balance[0]`), has zero drawdown and is not
underwater, so every episode produced by `identify_drawdown_periods` starts
at index ≥ 1. -/
theorem c10_first_point_above_water (p : EquityPoint) (ps : List EquityPoint) :
    ((calculate_drawdown_series (p :: ps)).getD 0 default).peak = p.balance ∧
    ((calculate_drawdown_series (p :: ps)).getD 0 default).drawdown = 0 ∧
    ((calculate_drawdown_series (p :: ps)).getD 0 default).underwater = false ∧
    ∀ ep ∈ identify_drawdown_periods (p :: ps), 1 ≤ ep.start_idx := by
  have hser :
      calculate_drawdown_series (p :: ps) =
        { timestamp := p.timestamp, balance := p.balance, pnl := p.pnl,
          returns := p.returns, peak := p.balance, drawdown := 0,
          drawdown_pct := 0, underwater := false } ::
          ((ps.zip (cummaxAux p.balance (ps.map EquityPoint.balance))).map
            (fun q =>
              { timestamp := q.1.timestamp
                balance := q.1.balance
                pnl := q.1.pnl
                returns := q.1.returns
                peak := q.2
                drawdown := q.1.balance - q.2
                drawdown_pct := (q.1.balance - q.2) / q.2 * 100
                underwater := q.1.balance < q.2 })) := by
    simp [calculate_drawdown_series, cummax]
  refine ⟨by rw [hser]; rfl, by rw [hser]; simp, by rw [hser]; simp, ?_⟩
  intro ep hep
  rw [identify_drawdown_periods, hser, scanPeriods] at hep
  rw [if_neg (by simp)] at hep
  have := scanPeriods_start_le _ 1 none (by intro c hc; cases hc) ep hep
  simpa [curStart] using this

theorem c10_witness :
    ((calculate_drawdown_series
        [(⟨1, 10100, 100, 1⟩ : EquityPoint)]).getD 0 default).peak =
      (⟨1, 10100, 100, 1⟩ : EquityPoint).balance ∧
    ((calculate_drawdown_series
        [(⟨1, 10100, 100, 1⟩ : EquityPoint)]).getD 0 default).drawdown = 0 ∧
    ((calculate_drawdown_series
        [(⟨1, 10100, 100, 1⟩ : EquityPoint)]).getD 0 default).underwater =
      false ∧
    ∀ ep ∈ identify_drawdown_periods [(⟨1, 10100, 100, 1⟩ : EquityPoint)],
      1 ≤ ep.start_idx :=
  c10_first_point_above_water ⟨1, 10100, 100, 1⟩ []

instance : Inhabited Trade := ⟨⟨0, 0⟩⟩

theorem insertLe_length {α : Type} (le : α → α → Bool) (x : α) (l : List α) :
    (insertLe le x l).length = l.length + 1 := by
  induction l with
  | nil => rfl
  | cons y ys ih =>
    rw [insertLe]
    split <;> simp [ih]

theorem insertionSort_length {α : Type} (le : α → α → Bool) (l : List α) :
    (insertionSort le l).length = l.length := by
  induction l with
  | nil => rfl
  | cons x xs ih => rw [insertionSort, insertLe_length, ih, List.length_cons]

theorem sortTrades_length (df : List Trade) :
    (sortTrades df).length = df.length :=
  insertionSort_length _ df

theorem to_equity_curve_length (df : List Trade) (sb : ℚ) :
    (to_equity_curve df sb).length = df.length := by
  simp [to_equity_curve, sortTrades_length]

theorem to_equity_curve_getD (df : List Trade) (sb : ℚ) (i : ℕ)
    (hi : i < df.length) :
    (to_equity_curve df sb).getD i default =
      { timestamp := ((sortTrades df).getD i default).timestamp_exit
        balance := sb + (((sortTrades df).map Trade.pnl).take (i + 1)).sum
        pnl := ((sortTrades df).getD i default).pnl
        returns := ((sortTrades df).getD i default).pnl /
          (sb + (((sortTrades df).map Trade.pnl).take i).sum) * 100 } := by
  have hs : i < (sortTrades df).length := by rw [sortTrades_length]; exact hi
  have he : i < (sortTrades df).enum.length := by
    rw [List.enum_length]; exact hs
  have hl : i < (to_equity_curve df sb).length := by
    rw [to_equity_curve_length]; exact hi
  rw [List.getD_eq_getElem _ _ hl, List.getD_eq_getElem _ _ hs]
  simp only [to_equity_curve, List.getElem_map, List.getElem_enum]

theorem to_equity_curve_map_pnl (df : List Trade) (sb : ℚ) :
    (to_equity_curve df sb).map EquityPoint.pnl =
      (sortTrades df).map Trade.pnl := by
  simp only [to_equity_curve, List.map_map]
  rw [show (EquityPoint.pnl ∘ fun p : ℕ × Trade =>
      ({ timestamp := p.2.timestamp_exit
         balance := sb + (((sortTrades df).map Trade.pnl).take (p.1 + 1)).sum
         pnl := p.2.pnl
         returns := p.2.pnl /
           (sb + (((sortTrades df).map Trade.pnl).take p.1).sum) * 100 } :
        EquityPoint)) = (Trade.pnl ∘ Prod.snd) from rfl]
  rw [← List.map_map, List.enum_map_snd]

/-- The per-index recurrence the claim states for `to_equity_curve`:
one point per trade; `balance[i] = starting_balance + cumsum(pnl[0..i])`;
`balance[0] - starting_balance = pnl[0]`;
`balance[i] - balance[i-1] = pnl[i]` for `i > 0`; and
`returns[i] = pnl[i] / balance[i-1] * 100` with `balance[-1]` taken as the
starting balance. -/
def EquityCurveRecurrence (df : List Trade) (sb : ℚ) : Prop :=
  (to_equity_curve df sb).length = df.length ∧
  (∀ i, i < (to_equity_curve df sb).length →
    ((to_equity_curve df sb).getD i default).balance =
      sb + (((to_equity_curve df sb).map EquityPoint.pnl).take (i + 1)).sum) ∧
  (((to_equity_curve df sb).getD 0 default).balance - sb =
    ((to_equity_curve df sb).getD 0 default).pnl) ∧
  (∀ i, 0 < i → i < (to_equity_curve df sb).length →
    ((to_equity_curve df sb).getD i default).balance -
      ((to_equity_curve df sb).getD (i - 1) default).balance =
      ((to_equity_curve df sb).getD i default).pnl) ∧
  (∀ i, i < (to_equity_curve df sb).length →
    ((to_equity_curve df sb).getD i default).returns =
      ((to_equity_curve df sb).getD i default).pnl /
        (if i = 0 then sb
         else ((to_equity_curve df sb).getD (i - 1) default).balance) * 100)

/-- Claim C5: for every non-empty trade sequence and starting balance, the equity
curve built by `to_equity_curve` satisfies the balance/cumsum/returns
recurrence of the claim. -/
theorem c5_equity_curve_recurrence (df : List Trade) (sb : ℚ)
    (h : df ≠ []) : EquityCurveRecurrence df sb := by
  have hlen := to_equity_curve_length df sb
  have hmap := to_equity_curve_map_pnl df sb
  have hget : ∀ i, i < df.length →
      (to_equity_curve df sb).getD i default =
        { timestamp := ((sortTrades df).getD i default).timestamp_exit
          balance := sb + (((sortTrades df).map Trade.pnl).take (i + 1)).sum
          pnl := ((sortTrades df).getD i default).pnl
          returns := ((sortTrades df).getD i default).pnl /
            (sb + (((sortTrades df).map Trade.pnl).take i).sum) * 100 } :=
    fun i hi => to_equity_curve_getD df sb i hi
  have hlen0 : 0 < df.length := List.length_pos.mpr h
  have hpnl : ∀ i, i < df.length →
      ((to_equity_curve df sb).getD i default).pnl =
        ((sortTrades df).map Trade.pnl).getD i 0 := by
    intro i hi
    rw [hget i hi]
    have hs : i < ((sortTrades df).map Trade.pnl).length := by
      rw [List.length_map, sortTrades_length]; exact hi
    rw [List.getD_eq_getElem _ _ hs, List.getElem_map,
      ← List.getD_eq_getElem (sortTrades df) default
        (by rw [sortTrades_length]; exact hi)]
  refine ⟨hlen, ?_, ?_, ?_, ?_⟩
  · intro i hi
    rw [hget i (hlen ▸ hi), hmap]
  · rw [hget 0 hlen0]
    have hs : 0 < ((sortTrades df).map Trade.pnl).length := by
      rw [List.length_map, sortTrades_length]; exact hlen0
    have hs' : 0 < (sortTrades df).length := by
      rw [sortTrades_length]; exact hlen0
    simp only [add_sub_cancel_left, List.sum_take_succ _ 0 hs,
      List.getElem_map, List.take_zero, List.sum_nil, zero_add]
    rw [← List.getD_eq_getElem (sortTrades df) default hs']
  · intro i h0 hi
    rw [hlen] at hi
    rw [hget i hi, hget (i - 1) (by omega)]
    have hs : i < ((sortTrades df).map Trade.pnl).length := by
      rw [List.length_map, sortTrades_length]; exact hi
    have : i - 1 + 1 = i := by omega
    rw [this, List.sum_take_succ _ i hs]
    simp [List.getElem_map,
      ← List.getD_eq_getElem (sortTrades df) default
        (by rw [sortTrades_length]; exact hi)]
  · intro i hi
    rw [hlen] at hi
    rw [hget i hi]
    by_cases h0 : i = 0
    · subst h0; simp
    · rw [if_neg h0, hget (i - 1) (by omega)]
      have : i - 1 + 1 = i := by omega
      rw [this]

theorem c5_witness : EquityCurveRecurrence [⟨1, 100⟩, ⟨2, -50⟩] 10000 :=
  c5_equity_curve_recurrence [⟨1, 100⟩, ⟨2, -50⟩] 10000 (by simp)

theorem cummaxAux_length (m : ℚ) (xs : List ℚ) :
    (cummaxAux m xs).length = xs.length := by
  induction xs generalizing m with
  | nil => rfl
  | cons x xs ih => simp [cummaxAux, ih]

theorem cummax_length (l : List ℚ) : (cummax l).length = l.length := by
  cases l with
  | nil => rfl
  | cons x xs => simp [cummax, cummaxAux_length]

theorem cummaxAux_getD (xs : List ℚ) :
    ∀ (m : ℚ) (i : ℕ), i < xs.length →
      (cummaxAux m xs).getD i 0 = (xs.take (i + 1)).foldl max m := by
  induction xs with
  | nil => intro m i hi; simp at hi
  | cons x xs ih =>
    intro m i hi
    cases i with
    | zero => simp [cummaxAux]
    | succ i =>
      have hi' : i < xs.length := by simpa using hi
      simp only [cummaxAux, List.getD_cons_succ, List.take_succ_cons,
        List.foldl_cons]
      exact ih (max m x) i hi'

theorem cummax_getD (x : ℚ) (xs : List ℚ) (i : ℕ)
    (hi : i < (x :: xs).length) :
    (cummax (x :: xs)).getD i 0 = ((x :: xs).take (i + 1)).foldl max x := by
  cases i with
  | zero => simp [cummax]
  | succ i =>
    have hi' : i < xs.length := by simpa using hi
    simp only [cummax, List.getD_cons_succ, List.take_succ_cons,
      List.foldl_cons, max_self]
    exact cummaxAux_getD xs x i hi'

theorem le_foldl_max (l : List ℚ) : ∀ m : ℚ, m ≤ l.foldl max m := by
  induction l with
  | nil => intro m; simp
  | cons x xs ih =>
    intro m
    exact le_trans (le_max_left m x) (ih (max m x))

theorem mem_le_foldl_max (l : List ℚ) :
    ∀ (m y : ℚ), y ∈ l → y ≤ l.foldl max m := by
  induction l with
  | nil => intro m y hy; simp at hy
  | cons x xs ih =>
    intro m y hy
    rcases List.mem_cons.mp hy with rfl | hy
    · exact le_trans (le_max_right m y) (le_foldl_max xs _)
    · exact ih _ y hy

theorem foldl_max_cases (l : List ℚ) :
    ∀ m : ℚ, l.foldl max m = m ∨ l.foldl max m ∈ l := by
  induction l with
  | nil => intro m; simp
  | cons x xs ih =>
    intro m
    rcases ih (max m x) with h | h
    · rcases max_cases m x with ⟨he, _⟩ | ⟨he, _⟩
      · left; rw [List.foldl_cons, h, he]
      · right; rw [List.foldl_cons, h, he]; exact List.mem_cons_self x xs
    · right; exact List.mem_cons_of_mem x h

theorem foldl_max_prefix_le (l : List ℚ) (m : ℚ) (j i : ℕ) (hj : j ≤ i) :
    (l.take (j + 1)).foldl max m ≤ (l.take (i + 1)).foldl max m := by
  have htt : (l.take (i + 1)).take (j + 1) = l.take (j + 1) := by
    rw [List.take_take, min_eq_left (by omega)]
  calc (l.take (j + 1)).foldl max m
      = ((l.take (i + 1)).take (j + 1)).foldl max m := by rw [htt]
    _ ≤ (((l.take (i + 1)).take (j + 1)) ++
          ((l.take (i + 1)).drop (j + 1))).foldl max m := by
        rw [List.foldl_append]
        exact le_foldl_max _ _
    _ = (l.take (i + 1)).foldl max m := by rw [List.take_append_drop]

theorem getD_mem_take (l : List ℚ) (j n : ℕ) (hj : j < n)
    (hl : j < l.length) : l.getD j 0 ∈ l.take n := by
  have hjt : j < (l.take n).length := by
    rw [List.length_take]
    exact lt_min hj hl
  have h1 : (l.take n).getD j 0 = l.getD j 0 := by
    rw [List.getD_eq_getElem _ _ hjt, List.getD_eq_getElem _ _ hl]
    exact List.getElem_take l
  rw [← h1, List.getD_eq_getElem _ _ hjt]
  exact List.getElem_mem hjt

theorem calculate_drawdown_series_length (ec : List EquityPoint) :
    (calculate_drawdown_series ec).length = ec.length := by
  simp [calculate_drawdown_series, cummax_length]

theorem calculate_drawdown_series_getD (ec : List EquityPoint) (i : ℕ)
    (hi : i < ec.length) :
    (calculate_drawdown_series ec).getD i default =
      { timestamp := (ec.getD i default).timestamp
        balance := (ec.getD i default).balance
        pnl := (ec.getD i default).pnl
        returns := (ec.getD i default).returns
        peak := (cummax (ec.map EquityPoint.balance)).getD i 0
        drawdown := (ec.getD i default).balance -
          (cummax (ec.map EquityPoint.balance)).getD i 0
        drawdown_pct := ((ec.getD i default).balance -
            (cummax (ec.map EquityPoint.balance)).getD i 0) /
          (cummax (ec.map EquityPoint.balance)).getD i 0 * 100
        underwater := (ec.getD i default).balance <
          (cummax (ec.map EquityPoint.balance)).getD i 0 } := by
  have hz : i < (ec.zip (cummax (ec.map EquityPoint.balance))).length := by
    simp [List.length_zip, cummax_length, hi]
  have hd : i < (calculate_drawdown_series ec).length := by
    rw [calculate_drawdown_series_length]; exact hi
  have hc : i < (cummax (ec.map EquityPoint.balance)).length := by
    rw [cummax_length, List.length_map]; exact hi
  rw [List.getD_eq_getElem _ _ hd, List.getD_eq_getElem _ _ hi,
    List.getD_eq_getElem _ _ hc]
  simp only [calculate_drawdown_series, List.getElem_map, List.getElem_zip]

/-- Index-wise invariants of the drawdown series, as stated by the claim but
with the sign facts about `drawdown_pct` guarded by positivity of the
running peak: per point, the peak is an attained upper bound of the balance
prefix and is non-decreasing, `underwater` is exactly `balance < peak`, and
— whenever `peak > 0` — `drawdown_pct ≤ 0` with equality exactly off
underwater. -/
def DrawdownSeriesSpec (ec : List EquityPoint) : Prop :=
  (calculate_drawdown_series ec).length = ec.length ∧
  ∀ i, i < (calculate_drawdown_series ec).length →
    (((calculate_drawdown_series ec).getD i default).balance =
      (ec.getD i default).balance) ∧
    (∀ j, j ≤ i →
      ((calculate_drawdown_series ec).getD j default).balance ≤
        ((calculate_drawdown_series ec).getD i default).peak) ∧
    (∃ j, j ≤ i ∧
      ((calculate_drawdown_series ec).getD j default).balance =
        ((calculate_drawdown_series ec).getD i default).peak) ∧
    (∀ j, j ≤ i →
      ((calculate_drawdown_series ec).getD j default).peak ≤
        ((calculate_drawdown_series ec).getD i default).peak) ∧
    (((calculate_drawdown_series ec).getD i default).underwater = true ↔
      ((calculate_drawdown_series ec).getD i default).balance <
        ((calculate_drawdown_series ec).getD i default).peak) ∧
    (0 < ((calculate_drawdown_series ec).getD i default).peak →
      ((calculate_drawdown_series ec).getD i default).drawdown_pct ≤ 0 ∧
      (((calculate_drawdown_series ec).getD i default).drawdown_pct = 0 ↔
        ((calculate_drawdown_series ec).getD i default).underwater = false))

/-- Claim C4 (amended): the peak/underwater invariants hold for every curve, and
the `drawdown_pct` sign facts hold at every index whose running peak is
positive (the original unguarded claim fails for negative peaks, see the
counterexample). -/
theorem c4_amended_drawdown_invariants (ec : List EquityPoint) :
    DrawdownSeriesSpec ec := by
  refine ⟨calculate_drawdown_series_length ec, ?_⟩
  intro i hi
  rw [calculate_drawdown_series_length] at hi
  cases ec with
  | nil => simp at hi
  | cons e es =>
    have hpk : ∀ j, j < (e :: es).length →
        ((calculate_drawdown_series (e :: es)).getD j default).peak =
          ((((e :: es).map EquityPoint.balance)).take (j + 1)).foldl max
            e.balance := by
      intro j hj
      rw [calculate_drawdown_series_getD _ j hj]
      exact cummax_getD e.balance (es.map EquityPoint.balance) j
        (by simpa using hj)
    have hbal : ∀ j, j < (e :: es).length →
        ((calculate_drawdown_series (e :: es)).getD j default).balance =
          ((e :: es).getD j default).balance := by
      intro j hj
      rw [calculate_drawdown_series_getD _ j hj]
    have hbal_l : ∀ j, j < (e :: es).length →
        ((e :: es).getD j default).balance =
          ((e :: es).map EquityPoint.balance).getD j 0 := by
      intro j hj
      rw [List.getD_eq_getElem _ _ hj,
        List.getD_eq_getElem _ _ (by simpa using hj), List.getElem_map]
    have hub : ∀ j, j ≤ i →
        ((e :: es).getD j default).balance ≤
          (((e :: es).map EquityPoint.balance).take (i + 1)).foldl max
            e.balance := by
      intro j hj
      have hjl : j < (e :: es).length := lt_of_le_of_lt hj hi
      have hjm : j < ((e :: es).map EquityPoint.balance).length := by
        simpa using hjl
      rw [hbal_l j hjl]
      exact mem_le_foldl_max _ _ _
        (getD_mem_take _ j (i + 1) (by omega) hjm)
    refine ⟨hbal i hi, ?_, ?_, ?_, ?_, ?_⟩
    · intro j hj
      rw [hbal j (lt_of_le_of_lt hj hi), hpk i hi]
      exact hub j hj
    · rw [hpk i hi]
      rcases foldl_max_cases
          (((e :: es).map EquityPoint.balance).take (i + 1)) e.balance with
        h | h
      · refine ⟨0, Nat.zero_le i, ?_⟩
        rw [hbal 0 (by simp), h]
        rfl
      · obtain ⟨k, hk, hkv⟩ := List.getElem_of_mem h
        have hkm : k < ((e :: es).map EquityPoint.balance).length := by
          have := hk
          rw [List.length_take] at this
          omega
        have hki : k ≤ i := by
          have := hk
          rw [List.length_take] at this
          omega
        have hkl : k < (e :: es).length := by simpa using hkm
        refine ⟨k, hki, ?_⟩
        rw [hbal k hkl, hbal_l k hkl, List.getD_eq_getElem _ _ hkm, ← hkv,
          List.getElem_take]
    · intro j hj
      rw [hpk j (lt_of_le_of_lt hj hi), hpk i hi]
      exact foldl_max_prefix_le _ _ j i hj
    · rw [calculate_drawdown_series_getD _ i hi]
      simp [decide_eq_true_eq]
    · have hpkeq := hpk i hi
      rw [calculate_drawdown_series_getD _ i hi] at hpkeq ⊢
      simp only at hpkeq ⊢
      intro hpos
      have hble : ((e :: es).getD i default).balance ≤
          (cummax ((e :: es).map EquityPoint.balance)).getD i 0 := by
        rw [hpkeq]
        exact hub i le_rfl
      set b := ((e :: es).getD i default).balance with hb
      set pk := (cummax ((e :: es).map EquityPoint.balance)).getD i 0 with hpkv
      constructor
      · have h1 : b - pk ≤ 0 := sub_nonpos.2 hble
        have h2 : (b - pk) / pk ≤ 0 :=
          div_nonpos_of_nonpos_of_nonneg h1 hpos.le
        exact mul_nonpos_iff.mpr (Or.inr ⟨h2, by norm_num⟩)
      · rw [decide_eq_false_iff_not, not_lt]
        constructor
        · intro h0
          rcases mul_eq_zero.mp h0 with h0 | h0
          · rcases div_eq_zero_iff.mp h0 with h0 | h0
            · linarith [sub_eq_zero.mp h0]
            · exact absurd h0 hpos.ne'
          · norm_num at h0
        · intro hge
          have : b = pk := le_antisymm hble hge
          rw [this, sub_self, zero_div, zero_mul]

theorem c4_witness : DrawdownSeriesSpec (to_equity_curve [⟨1, 100⟩] 10000) :=
  c4_amended_drawdown_invariants (to_equity_curve [⟨1, 100⟩] 10000)

theorem foldl_min_le_self (l : List ℚ) : ∀ m : ℚ, l.foldl min m ≤ m := by
  induction l with
  | nil => intro m; simp
  | cons x xs ih =>
    intro m
    exact le_trans (ih (min m x)) (min_le_left m x)

theorem foldl_min_le_mem (l : List ℚ) :
    ∀ (m y : ℚ), y ∈ l → l.foldl min m ≤ y := by
  induction l with
  | nil => intro m y hy; simp at hy
  | cons x xs ih =>
    intro m y hy
    rcases List.mem_cons.mp hy with rfl | hy
    · exact le_trans (foldl_min_le_self xs _) (min_le_right m y)
    · exact ih _ y hy

theorem foldl_min_cases (l : List ℚ) :
    ∀ m : ℚ, l.foldl min m = m ∨ l.foldl min m ∈ l := by
  induction l with
  | nil => intro m; simp
  | cons x xs ih =>
    intro m
    rcases ih (min m x) with h | h
    · rcases min_cases m x with ⟨he, _⟩ | ⟨he, _⟩
      · left; rw [List.foldl_cons, h, he]
      · right; rw [List.foldl_cons, h, he]; exact List.mem_cons_self x xs
    · right; exact List.mem_cons_of_mem x h

theorem idxmin_spec (l : List ℚ) (hl : l ≠ []) :
    ∃ t, idxmin l = some t ∧ t < l.length ∧
      (∀ j, j < l.length → l.getD t 0 ≤ l.getD j 0) ∧
      ∀ j, j < t → l.getD t 0 < l.getD j 0 := by
  cases l with
  | nil => exact absurd rfl hl
  | cons x xs =>
    set mv := xs.foldl min x with hmv
    have hmem : mv ∈ x :: xs := by
      rcases foldl_min_cases xs x with h | h
      · rw [hmv, h]; exact List.mem_cons_self x xs
      · exact List.mem_cons_of_mem x (hmv ▸ h)
    have hle : ∀ y ∈ x :: xs, mv ≤ y := by
      intro y hy
      rcases List.mem_cons.mp hy with rfl | hy
      · exact foldl_min_le_self xs y
      · exact foldl_min_le_mem xs x y hy
    have hfound : ∃ y ∈ x :: xs, (fun y => decide (y = mv)) y = true :=
      ⟨mv, hmem, by simp⟩
    have hlt := List.findIdx_lt_length_of_exists hfound
    have hval : (x :: xs).getD
        (List.findIdx (fun y => decide (y = mv)) (x :: xs)) 0 = mv := by
      rw [List.getD_eq_getElem _ _ hlt]
      have := @List.findIdx_getElem _ _ _ hlt
      simpa using this
    refine ⟨List.findIdx (fun y => decide (y = mv)) (x :: xs), rfl, hlt, ?_, ?_⟩
    · intro j hj
      rw [hval, List.getD_eq_getElem _ _ hj]
      exact hle _ (List.getElem_mem hj)
    · intro j hj
      have hjl : j < (x :: xs).length := lt_trans hj hlt
      have hne : (x :: xs).getD j 0 ≠ mv := by
        rw [List.getD_eq_getElem _ _ hjl]
        have := List.not_of_lt_findIdx hj
        simpa using this
      rw [hval, List.getD_eq_getElem _ _ hjl]
      rw [List.getD_eq_getElem _ _ hjl] at hne
      exact lt_of_le_of_ne (hle _ (List.getElem_mem hjl)) (Ne.symm hne)

theorem findLastBefore_spec (P : ℕ → Bool) (t : ℕ) :
    (findLastBefore P t = none ∧ ∀ j, j < t → P j = false) ∨
    (∃ p, findLastBefore P t = some p ∧ p < t ∧ P p = true ∧
      ∀ j, p < j → j < t → P j = false) := by
  induction t with
  | zero => left; exact ⟨rfl, by omega⟩
  | succ t ih =>
    by_cases hp : P t
    · right
      exact ⟨t, by rw [findLastBefore, if_pos hp], Nat.lt_succ_self t, hp,
        by omega⟩
    · have hP : P t = false := by simpa using hp
      rcases ih with ⟨hnone, hall⟩ | ⟨p, hsome, hlt, hPp, hafter⟩
      · left
        refine ⟨by rw [findLastBefore, if_neg hp]; exact hnone, ?_⟩
        intro j hj
        rcases Nat.lt_succ_iff_lt_or_eq.mp hj with hj | rfl
        · exact hall j hj
        · exact hP
      · right
        refine ⟨p, by rw [findLastBefore, if_neg hp]; exact hsome,
          lt_trans hlt (Nat.lt_succ_self t), hPp, ?_⟩
        intro j hj1 hj2
        rcases Nat.lt_succ_iff_lt_or_eq.mp hj2 with hj2 | rfl
        · exact hafter j hj1 hj2
        · exact hP

theorem findFirstFrom_spec (P : ℕ → Bool) (fuel : ℕ) :
    ∀ start : ℕ,
      (findFirstFrom P start fuel = none ∧
        ∀ j, start ≤ j → j < start + fuel → P j = false) ∨
      (∃ r, findFirstFrom P start fuel = some r ∧ start ≤ r ∧
        r < start + fuel ∧ P r = true ∧
        ∀ j, start ≤ j → j < r → P j = false) := by
  induction fuel with
  | zero => intro start; left; exact ⟨rfl, by omega⟩
  | succ fuel ih =>
    intro start
    by_cases hp : P start
    · right
      exact ⟨start, by rw [findFirstFrom, if_pos hp], le_rfl, by omega, hp,
        by omega⟩
    · have hP : P start = false := by simpa using hp
      rcases ih (start + 1) with ⟨hnone, hall⟩ | ⟨r, hsome, hge, hlt, hPr, hbefore⟩
      · left
        refine ⟨by rw [findFirstFrom, if_neg hp]; exact hnone, ?_⟩
        intro j hj1 hj2
        rcases Nat.eq_or_lt_of_le hj1 with rfl | hj1
        · exact hP
        · exact hall j (by omega) (by omega)
      · right
        refine ⟨r, by rw [findFirstFrom, if_neg hp]; exact hsome, by omega,
          by omega, hPr, ?_⟩
        intro j hj1 hj2
        rcases Nat.eq_or_lt_of_le hj1 with rfl | hj1
        · exact hP
        · exact hbefore j (by omega) hj2

/-- Row `j` of the drawdown series of a curve (the scan's `dd_series.loc[j]`). -/
def ddAt (ec : List EquityPoint) (j : ℕ) : DrawdownPoint :=
  (calculate_drawdown_series ec).getD j default

/-- Deterministic characterisation of the `maximum_drawdown` summary, as
amended: the trough `t` is the *first* index attaining the minimal
`drawdown_pct`; the peak index `p` is the *last* index strictly before `t`
whose balance equals the trough row's running peak, falling back to index 0
when no such index exists; the recovery is the *first* index strictly
*after* `t` (the source masks `index > max_dd_idx`) whose balance reaches
the peak balance, with null recovery fields and `currently_in_drawdown`
exactly when no such index exists. -/
def MaxDrawdownSpec (ec : List EquityPoint) : Prop :=
  ∃ md t p,
    maximum_drawdown ec = some md ∧
    t < (calculate_drawdown_series ec).length ∧
    (∀ j, j < (calculate_drawdown_series ec).length →
      (ddAt ec t).drawdown_pct ≤ (ddAt ec j).drawdown_pct) ∧
    (∀ j, j < t → (ddAt ec t).drawdown_pct < (ddAt ec j).drawdown_pct) ∧
    md.max_drawdown_pct = (ddAt ec t).drawdown_pct ∧
    md.max_drawdown_amount = (ddAt ec t).drawdown ∧
    md.peak_balance = (ddAt ec t).peak ∧
    md.trough_balance = (ddAt ec t).balance ∧
    md.trough_date = (ddAt ec t).timestamp ∧
    ((p < t ∧ (ddAt ec p).balance = (ddAt ec t).peak ∧
        ∀ j, p < j → j < t → (ddAt ec j).balance ≠ (ddAt ec t).peak) ∨
      (p = 0 ∧ ∀ j, j < t → (ddAt ec j).balance ≠ (ddAt ec t).peak)) ∧
    md.peak_date = (ddAt ec p).timestamp ∧
    md.duration_to_trough = t - p ∧
    ((∃ r, t < r ∧ r < (calculate_drawdown_series ec).length ∧
        (ddAt ec t).peak ≤ (ddAt ec r).balance ∧
        (∀ j, t < j → j < r → ¬((ddAt ec t).peak ≤ (ddAt ec j).balance)) ∧
        md.recovery_date = some (ddAt ec r).timestamp ∧
        md.duration_to_recovery = some (r - p) ∧
        md.currently_in_drawdown = false) ∨
      ((∀ j, t < j → j < (calculate_drawdown_series ec).length →
          ¬((ddAt ec t).peak ≤ (ddAt ec j).balance)) ∧
        md.recovery_date = none ∧
        md.duration_to_recovery = none ∧
        md.currently_in_drawdown = true))

/-- Claim C6 (amended): for every non-empty curve, `maximum_drawdown` follows the
deterministic trough/peak/recovery selection rules of `MaxDrawdownSpec`
(recovery strictly after the trough; peak falling back to index 0). -/
theorem c6_amended_maximum_drawdown (ec : List EquityPoint) (h : ec ≠ []) :
    MaxDrawdownSpec ec := by
  have hlen := calculate_drawdown_series_length ec
  have hddne : calculate_drawdown_series ec ≠ [] := by
    intro hc
    rw [hc] at hlen
    exact h (List.length_eq_zero.mp hlen.symm)
  have hmapne :
      (calculate_drawdown_series ec).map DrawdownPoint.drawdown_pct ≠ [] := by
    simpa using hddne
  obtain ⟨t, hidx, htlen, hmin, hfirst⟩ := idxmin_spec _ hmapne
  rw [List.length_map] at htlen
  have hmget : ∀ j, j < (calculate_drawdown_series ec).length →
      ((calculate_drawdown_series ec).map DrawdownPoint.drawdown_pct).getD j 0 =
        (ddAt ec j).drawdown_pct := by
    intro j hj
    rw [ddAt, List.getD_eq_getElem _ _ (by simpa using hj), List.getElem_map,
      List.getD_eq_getElem _ _ hj]
  have hmin' : ∀ j, j < (calculate_drawdown_series ec).length →
      (ddAt ec t).drawdown_pct ≤ (ddAt ec j).drawdown_pct := by
    intro j hj
    rw [← hmget t htlen, ← hmget j hj]
    exact hmin j (by simpa using hj)
  have hfirst' : ∀ j, j < t →
      (ddAt ec t).drawdown_pct < (ddAt ec j).drawdown_pct := by
    intro j hj
    rw [← hmget t htlen, ← hmget j (lt_trans hj htlen)]
    exact hfirst j hj
  rcases findLastBefore_spec
      (fun i => decide (((calculate_drawdown_series ec).getD i default).balance =
        ((calculate_drawdown_series ec).getD t default).peak)) t with
    ⟨hpnone, hpall⟩ | ⟨p, hpsome, hplt, hpP, hpafter⟩ <;>
  rcases findFirstFrom_spec
      (fun i => decide (((calculate_drawdown_series ec).getD t default).peak ≤
        ((calculate_drawdown_series ec).getD i default).balance))
      ((calculate_drawdown_series ec).length - (t + 1)) (t + 1) with
    ⟨hrnone, hrall⟩ | ⟨r, hrsome, hrge, hrlt, hrP, hrbefore⟩
  · -- no peak-equal index before t, no recovery after t
    refine ⟨{ max_drawdown_pct := (ddAt ec t).drawdown_pct
              max_drawdown_amount := (ddAt ec t).drawdown
              peak_balance := (ddAt ec t).peak
              trough_balance := (ddAt ec t).balance
              peak_date := (ddAt ec 0).timestamp
              trough_date := (ddAt ec t).timestamp
              recovery_date := none
              duration_to_trough := t - 0
              duration_to_recovery := none
              currently_in_drawdown := true },
      t, 0, ?_, htlen, hmin', hfirst', rfl, rfl, rfl, rfl, rfl,
      Or.inr ⟨rfl, ?_⟩, rfl, rfl, Or.inr ⟨?_, rfl, rfl, rfl⟩⟩
    · simp only [maximum_drawdown, hidx, hpnone, hrnone, Option.getD_none, ddAt]
    · intro j hj
      have := hpall j hj
      simpa [ddAt] using this
    · intro j hj1 hj2
      have := hrall j (by omega) (by omega)
      simpa [ddAt] using this
  · -- no peak-equal index before t, recovery found at r
    refine ⟨{ max_drawdown_pct := (ddAt ec t).drawdown_pct
              max_drawdown_amount := (ddAt ec t).drawdown
              peak_balance := (ddAt ec t).peak
              trough_balance := (ddAt ec t).balance
              peak_date := (ddAt ec 0).timestamp
              trough_date := (ddAt ec t).timestamp
              recovery_date := some (ddAt ec r).timestamp
              duration_to_trough := t - 0
              duration_to_recovery := some (r - 0)
              currently_in_drawdown := false },
      t, 0, ?_, htlen, hmin', hfirst', rfl, rfl, rfl, rfl, rfl,
      Or.inr ⟨rfl, ?_⟩, rfl, rfl,
      Or.inl ⟨r, by omega, by omega, ?_, ?_, rfl, rfl, rfl⟩⟩
    · simp only [maximum_drawdown, hidx, hpnone, hrsome, Option.getD_none, ddAt]
    · intro j hj
      have := hpall j hj
      simpa [ddAt] using this
    · simpa [ddAt] using hrP
    · intro j hj1 hj2
      have := hrbefore j (by omega) hj2
      simpa [ddAt] using this
  · -- peak-equal index p before t, no recovery after t
    refine ⟨{ max_drawdown_pct := (ddAt ec t).drawdown_pct
              max_drawdown_amount := (ddAt ec t).drawdown
              peak_balance := (ddAt ec t).peak
              trough_balance := (ddAt ec t).balance
              peak_date := (ddAt ec p).timestamp
              trough_date := (ddAt ec t).timestamp
              recovery_date := none
              duration_to_trough := t - p
              duration_to_recovery := none
              currently_in_drawdown := true },
      t, p, ?_, htlen, hmin', hfirst', rfl, rfl, rfl, rfl, rfl,
      Or.inl ⟨hplt, ?_, ?_⟩, rfl, rfl, Or.inr ⟨?_, rfl, rfl, rfl⟩⟩
    · simp only [maximum_drawdown, hidx, hpsome, hrnone, Option.getD_some, ddAt]
    · simpa [ddAt] using hpP
    · intro j hj1 hj2
      have := hpafter j hj1 hj2
      simpa [ddAt] using this
    · intro j hj1 hj2
      have := hrall j (by omega) (by omega)
      simpa [ddAt] using this
  · -- peak-equal index p before t, recovery found at r
    refine ⟨{ max_drawdown_pct := (ddAt ec t).drawdown_pct
              max_drawdown_amount := (ddAt ec t).drawdown
              peak_balance := (ddAt ec t).peak
              trough_balance := (ddAt ec t).balance
              peak_date := (ddAt ec p).timestamp
              trough_date := (ddAt ec t).timestamp
              recovery_date := some (ddAt ec r).timestamp
              duration_to_trough := t - p
              duration_to_recovery := some (r - p)
              currently_in_drawdown := false },
      t, p, ?_, htlen, hmin', hfirst', rfl, rfl, rfl, rfl, rfl,
      Or.inl ⟨hplt, ?_, ?_⟩, rfl, rfl,
      Or.inl ⟨r, by omega, by omega, ?_, ?_, rfl, rfl, rfl⟩⟩
    · simp only [maximum_drawdown, hidx, hpsome, hrsome, Option.getD_some, ddAt]
    · simpa [ddAt] using hpP
    · intro j hj1 hj2
      have := hpafter j hj1 hj2
      simpa [ddAt] using this
    · simpa [ddAt] using hrP
    · intro j hj1 hj2
      have := hrbefore j (by omega) hj2
      simpa [ddAt] using this

theorem c6_witness : MaxDrawdownSpec (to_equity_curve [⟨1, 100⟩, ⟨2, -50⟩] 10000) :=
  c6_amended_maximum_drawdown (to_equity_curve [⟨1, 100⟩, ⟨2, -50⟩] 10000)
    (by
      intro hc
      have := congrArg List.length hc
      simp [to_equity_curve_length] at this)

/-- Claim C8: for every non-empty curve none of whose returns is strictly below
the target, `sortino_ratio` returns `+infinity` when the mean return
exceeds the target and 0.0 otherwise, and never returns negative
infinity.  (Stated for an arbitrary rational target, which covers the
default per-period risk-free target: with the default `risk_free_rate = 0`
that target is exactly 0.) -/
theorem c8_sortino_no_downside (ec : List EquityPoint) (target : ℚ)
    (ppy : ℕ) (h : ec ≠ [])
    (hnd : ∀ r ∈ ec.map EquityPoint.returns, ¬(r < target)) :
    sortino_ratio ec target ppy =
      (if target < mean (ec.map EquityPoint.returns) then RatioVal.posInf
       else RatioVal.fin 0) ∧
    sortino_ratio ec target ppy ≠ RatioVal.negInf := by
  have hr : ec.map EquityPoint.returns ≠ [] := by simpa using h
  have hd : (ec.map EquityPoint.returns).filter
      (fun r => decide (r < target)) = [] :=
    List.filter_eq_nil_iff.mpr (by intro a ha; simpa using hnd a ha)
  have heq : sortino_ratio ec target ppy =
      (if target < mean (ec.map EquityPoint.returns) then RatioVal.posInf
       else RatioVal.fin 0) := by
    simp only [sortino_ratio, if_neg h, if_neg hr, hd, if_pos rfl]
    rw [if_pos trivial]
  refine ⟨heq, ?_⟩
  rw [heq]
  by_cases hm : target < mean (ec.map EquityPoint.returns)
  · rw [if_pos hm]
    exact fun hcon => RatioVal.noConfusion hcon
  · rw [if_neg hm]
    exact fun hcon => RatioVal.noConfusion hcon

theorem c8_witness :
    (sortino_ratio (to_equity_curve [⟨1, 100⟩] 10000) 0 252 =
      (if (0 : ℚ) <
          mean ((to_equity_curve [⟨1, 100⟩] 10000).map EquityPoint.returns)
       then RatioVal.posInf else RatioVal.fin 0) ∧
    sortino_ratio (to_equity_curve [⟨1, 100⟩] 10000) 0 252 ≠
      RatioVal.negInf) :=
  c8_sortino_no_downside (to_equity_curve [⟨1, 100⟩] 10000) 0 252
    (by
      intro hc
      have := congrArg List.length hc
      simp [to_equity_curve_length] at this)
    (by
      intro r hr
      norm_num [to_equity_curve, sortTrades, insertionSort, insertLe,
        List.enum, List.enumFrom] at hr
      rw [hr]
      norm_num)

/-- The branch structure of `calmar_ratio` as the claim states it: 0.0 on
the empty curve and whenever `years ≤ 0`; on the zero-drawdown branch
`+infinity` iff the annualised return is positive, else 0.0; otherwise
`annualized_return * 100 / |max_drawdown_pct|`, with
`years = num_points / periods_per_year`. -/
def CalmarSpec (ec : List EquityPoint) (ppy : ℕ) : Prop :=
  (ec = [] → calmar_ratio ec ppy = RatioVal.fin 0) ∧
  ((ec.length : ℚ) / ppy ≤ 0 → calmar_ratio ec ppy = RatioVal.fin 0) ∧
  (ec ≠ [] → 0 < (ec.length : ℚ) / ppy →
    (calmarMaxDD ec = 0 →
      calmar_ratio ec ppy =
        (if 0 < annualizedReturn ec ppy then RatioVal.posInf
         else RatioVal.fin 0)) ∧
    (calmarMaxDD ec ≠ 0 →
      calmar_ratio ec ppy =
        RatioVal.fin (annualizedReturn ec ppy * 100 / (calmarMaxDD ec : ℝ))))

/-- Claim C9: `calmar_ratio` follows the claimed branch structure for every curve
and period count. -/
theorem c9_calmar_branches (ec : List EquityPoint) (ppy : ℕ) :
    CalmarSpec ec ppy := by
  refine ⟨?_, ?_, ?_⟩
  · intro h
    rw [h]
    simp [calmar_ratio]
  · intro hy
    by_cases h : ec = []
    · rw [h]; simp [calmar_ratio]
    · simp only [calmar_ratio, if_neg h, if_pos hy]
  · intro h hy
    have hy' : ¬((ec.length : ℚ) / ppy ≤ 0) := not_le.mpr hy
    constructor
    · intro hz
      simp only [calmar_ratio, if_neg h, if_neg hy', hz, if_pos rfl]
      rw [if_pos trivial]
    · intro hz
      simp only [calmar_ratio, if_neg h, if_neg hy', if_neg hz]

theorem c9_witness : CalmarSpec (to_equity_curve [⟨1, 100⟩] 10000) 252 :=
  c9_calmar_branches (to_equity_curve [⟨1, 100⟩] 10000) 252

end MetricCore
